import Mathlib

/-!
Verification of the snarkVM sampled core against its design specification.

The development shallowly embeds the relevant Rust sources:
- `bytecode/src/instructions/mod.rs` (the `Instruction` enum, its opcode
  table, textual parser/formatter and byte codec);
- `synthesizer/src/process/stack/evaluate.rs` (`evaluate_closure`,
  `evaluate_function`);
- `circuits/types/group/src/mul.rs` (double-and-add scalar multiplication);
- `dpc/src/record/encrypted.rs` (`EncryptedRecord`: decrypt and byte codec);
- `synthesizer/src/block/bytes.rs` (`Block` byte codec with hash check).

Machine integers are modelled as `Nat` with explicit truncation where the
source truncates; fallible code returns `Except String` or `Option`; the
interior-mutable call stack is modelled by explicit state passing.
Components of the repository that are outside the sampled sources (operand
payloads of the bytecode variants, the request/registers machinery, the
external field/encryption capabilities) are modelled from the spec; each
such definition's doc comment says so.
-/

namespace SnarkVM

/-- Decidable equality for `Except`, so that concrete decode results can be
checked by `decide`. -/
instance {e a : Type} [DecidableEq e] [DecidableEq a] : DecidableEq (Except e a) := fun
  | .error x, .error y =>
    if h : x = y then .isTrue (by rw [h])
    else .isFalse (fun hc => h (Except.error.inj hc))
  | .error _, .ok _ => .isFalse (fun hc => Except.noConfusion hc)
  | .ok _, .error _ => .isFalse (fun hc => Except.noConfusion hc)
  | .ok x, .ok y =>
    if h : x = y then .isTrue (by rw [h])
    else .isFalse (fun hc => h (Except.ok.inj hc))

/-! ## Part 1: bytecode `Instruction` (bytecode/src/instructions/mod.rs) -/

namespace Bytecode

/-- Modelled from the spec: a typed literal operand ("typed literals",
"literals as their own typed encoding"); the literal files of the bytecode
crate are not among the sampled sources. `tyTag` is the literal's type tag,
`val` its value. -/
structure Lit where
  tyTag : Nat
  val : Nat
deriving DecidableEq, Repr

/-- Modelled from the spec: the operand model of the bytecode instruction
variants (files `add.rs` … `ternary.rs` are not among the sampled sources):
an operand is a register index or a typed literal. -/
inductive Operand where
  | register (idx : Nat)
  | literal (l : Lit)
deriving DecidableEq, Repr

/-- Modelled from the spec: payload of a unary opcode — one input operand and
a destination register index. -/
structure UnaryOp where
  operand : Operand
  destination : Nat
deriving DecidableEq, Repr

/-- Modelled from the spec: payload of a binary opcode. -/
structure BinaryOp where
  first : Operand
  second : Operand
  destination : Nat
deriving DecidableEq, Repr

/-- Modelled from the spec: payload of the ternary opcode. -/
structure TernaryOp where
  condition : Operand
  first : Operand
  second : Operand
  destination : Nat
deriving DecidableEq, Repr

/-- The `Instruction` enum of `bytecode/src/instructions/mod.rs`, variants in
declaration order (the derived `EnumIndex` numbers them in this order). -/
inductive Instruction where
  | add (op : BinaryOp)
  | div (op : BinaryOp)
  | double (op : UnaryOp)
  | equal (op : BinaryOp)
  | greaterThan (op : BinaryOp)
  | greaterThanOrEqual (op : BinaryOp)
  | inv (op : UnaryOp)
  | lessThan (op : BinaryOp)
  | lessThanOrEqual (op : BinaryOp)
  | mul (op : BinaryOp)
  | neg (op : UnaryOp)
  | notEqual (op : BinaryOp)
  | pow (op : BinaryOp)
  | square (op : UnaryOp)
  | sub (op : BinaryOp)
  | ternary (op : TernaryOp)
deriving DecidableEq, Repr

/-- `Instruction::opcode`: the derived `enum_index`, i.e. the declaration
position of the variant, as a `u16`. -/
def Instruction.opcode : Instruction → Nat
  | .add _ => 0
  | .div _ => 1
  | .double _ => 2
  | .equal _ => 3
  | .greaterThan _ => 4
  | .greaterThanOrEqual _ => 5
  | .inv _ => 6
  | .lessThan _ => 7
  | .lessThanOrEqual _ => 8
  | .mul _ => 9
  | .neg _ => 10
  | .notEqual _ => 11
  | .pow _ => 12
  | .square _ => 13
  | .sub _ => 14
  | .ternary _ => 15

/-- Modelled from the spec: the mnemonic table ("a fixed mnemonic string" per
opcode; the per-variant files carrying `mnemonic()` are not among the sampled
sources). -/
def Instruction.mnemonic : Instruction → List Char
  | .add _ => [ 'a', 'd', 'd' ]
  | .div _ => [ 'd', 'i', 'v' ]
  | .double _ => [ 'd', 'o', 'u', 'b', 'l', 'e' ]
  | .equal _ => [ 'e', 'q' ]
  | .greaterThan _ => [ 'g', 't' ]
  | .greaterThanOrEqual _ => [ 'g', 't', 'e' ]
  | .inv _ => [ 'i', 'n', 'v' ]
  | .lessThan _ => [ 'l', 't' ]
  | .lessThanOrEqual _ => [ 'l', 't', 'e' ]
  | .mul _ => [ 'm', 'u', 'l' ]
  | .neg _ => [ 'n', 'e', 'g' ]
  | .notEqual _ => [ 'n', 'e', 'q' ]
  | .pow _ => [ 'p', 'o', 'w' ]
  | .square _ => [ 's', 'q', 'u', 'a', 'r', 'e' ]
  | .sub _ => [ 's', 'u', 'b' ]
  | .ternary _ => [ 't', 'e', 'r', 'n', 'a', 'r', 'y' ]

/-! ### Variable-length natural-number codec

Modelled from the spec: "registers as variable-length indices". Seven value
bits per byte, low group first, high bit of a byte set when more groups
follow. A fuel argument (any fuel above the value suffices) keeps the
recursion structural so that encodings compute by `rfl`/`decide`. -/

/-- Emit the base-128 groups of `n`, low group first; `fuel` bounds the
recursion depth. -/
def encodeVarintAux : Nat → Nat → List Nat
  | 0, _ => []
  | fuel + 1, n => if n < 128 then [n] else (128 + n % 128) :: encodeVarintAux fuel (n / 128)

/-- Variable-length encoding of a register index / literal component. -/
def encodeVarint (n : Nat) : List Nat :=
  encodeVarintAux (n + 1) n

/-- Decode a variable-length natural from the front of a byte stream. -/
def decodeVarint : List Nat → Except String (Nat × List Nat)
  | [] => .error "truncated varint"
  | b :: bs =>
    if b < 128 then .ok (b, bs)
    else
      match decodeVarint bs with
      | .ok (m, rest) => .ok ((b - 128) + 128 * m, rest)
      | .error e => .error e

/-- Modelled from the spec: binary encoding of an operand — a discriminant
byte (`0` register, `1` literal), then the variable-length components. -/
def encodeOperand : Operand → List Nat
  | .register i => 0 :: encodeVarint i
  | .literal l => 1 :: (encodeVarint l.tyTag ++ encodeVarint l.val)

/-- Decode an operand from the front of a byte stream. -/
def decodeOperand : List Nat → Except String (Operand × List Nat)
  | [] => .error "truncated operand"
  | b :: bs =>
    if b = 0 then
      match decodeVarint bs with
      | .ok (i, rest) => .ok (.register i, rest)
      | .error e => .error e
    else if b = 1 then
      match decodeVarint bs with
      | .ok (t, rest) =>
        match decodeVarint rest with
        | .ok (v, rest') => .ok (.literal ⟨t, v⟩, rest')
        | .error e => .error e
      | .error e => .error e
    else .error "unknown operand discriminant"

/-- Binary encoding of a unary payload: operand, then destination index. -/
def encodeUnary (p : UnaryOp) : List Nat :=
  encodeOperand p.operand ++ encodeVarint p.destination

/-- Binary encoding of a binary payload. -/
def encodeBinary (p : BinaryOp) : List Nat :=
  encodeOperand p.first ++ encodeOperand p.second ++ encodeVarint p.destination

/-- Binary encoding of the ternary payload. -/
def encodeTernary (p : TernaryOp) : List Nat :=
  encodeOperand p.condition ++ encodeOperand p.first ++ encodeOperand p.second
    ++ encodeVarint p.destination

/-- Decode a unary payload. -/
def decodeUnary (bs : List Nat) : Except String (UnaryOp × List Nat) :=
  match decodeOperand bs with
  | .ok (o, rest) =>
    match decodeVarint rest with
    | .ok (d, rest') => .ok (⟨o, d⟩, rest')
    | .error e => .error e
  | .error e => .error e

/-- Decode a binary payload. -/
def decodeBinary (bs : List Nat) : Except String (BinaryOp × List Nat) :=
  match decodeOperand bs with
  | .ok (o₁, r₁) =>
    match decodeOperand r₁ with
    | .ok (o₂, r₂) =>
      match decodeVarint r₂ with
      | .ok (d, r₃) => .ok (⟨o₁, o₂, d⟩, r₃)
      | .error e => .error e
    | .error e => .error e
  | .error e => .error e

/-- Decode the ternary payload. -/
def decodeTernary (bs : List Nat) : Except String (TernaryOp × List Nat) :=
  match decodeOperand bs with
  | .ok (c, r₀) =>
    match decodeOperand r₀ with
    | .ok (o₁, r₁) =>
      match decodeOperand r₁ with
      | .ok (o₂, r₂) =>
        match decodeVarint r₂ with
        | .ok (d, r₃) => .ok (⟨c, o₁, o₂, d⟩, r₃)
        | .error e => .error e
      | .error e => .error e
    | .error e => .error e
  | .error e => .error e

/-- The payload bytes of an instruction (per-variant `write_le`). -/
def Instruction.payloadBytes : Instruction → List Nat
  | .add p => encodeBinary p
  | .div p => encodeBinary p
  | .double p => encodeUnary p
  | .equal p => encodeBinary p
  | .greaterThan p => encodeBinary p
  | .greaterThanOrEqual p => encodeBinary p
  | .inv p => encodeUnary p
  | .lessThan p => encodeBinary p
  | .lessThanOrEqual p => encodeBinary p
  | .mul p => encodeBinary p
  | .neg p => encodeUnary p
  | .notEqual p => encodeBinary p
  | .pow p => encodeBinary p
  | .square p => encodeUnary p
  | .sub p => encodeBinary p
  | .ternary p => encodeTernary p

/-- `u16` little-endian byte pair (low byte first), truncating as `as u16`
would. -/
def u16le (n : Nat) : List Nat :=
  [n % 256, n / 256 % 256]

/-- Read a little-endian `u16` off the front of a byte stream. -/
def readU16 : List Nat → Except String (Nat × List Nat)
  | b0 :: b1 :: rest => .ok (b0 % 256 + 256 * (b1 % 256), rest)
  | _ => .error "truncated u16"

/-- `ToBytes for Instruction`: the 2-byte little-endian opcode tag followed
by the variant's own serialized operands. -/
def Instruction.writeLe (i : Instruction) : List Nat :=
  u16le i.opcode ++ i.payloadBytes

/-- `FromBytes for Instruction` (`read_le`): read the `u16` opcode tag, then
dispatch on the hard-coded code table; an unrecognized code is a decode
error naming the code. -/
def Instruction.readLe (bs : List Nat) : Except String (Instruction × List Nat) :=
  match readU16 bs with
  | .error e => .error e
  | .ok (code, bs) =>
    match code with
    | 0 => (decodeBinary bs).map (fun (p, r) => (.add p, r))
    | 1 => (decodeBinary bs).map (fun (p, r) => (.div p, r))
    | 2 => (decodeUnary bs).map (fun (p, r) => (.double p, r))
    | 3 => (decodeBinary bs).map (fun (p, r) => (.equal p, r))
    | 4 => (decodeBinary bs).map (fun (p, r) => (.greaterThan p, r))
    | 5 => (decodeBinary bs).map (fun (p, r) => (.greaterThanOrEqual p, r))
    | 6 => (decodeUnary bs).map (fun (p, r) => (.inv p, r))
    | 7 => (decodeBinary bs).map (fun (p, r) => (.lessThan p, r))
    | 8 => (decodeBinary bs).map (fun (p, r) => (.lessThanOrEqual p, r))
    | 9 => (decodeBinary bs).map (fun (p, r) => (.mul p, r))
    | 10 => (decodeUnary bs).map (fun (p, r) => (.neg p, r))
    | 11 => (decodeBinary bs).map (fun (p, r) => (.notEqual p, r))
    | 12 => (decodeBinary bs).map (fun (p, r) => (.pow p, r))
    | 13 => (decodeUnary bs).map (fun (p, r) => (.square p, r))
    | 14 => (decodeBinary bs).map (fun (p, r) => (.sub p, r))
    | 15 => (decodeTernary bs).map (fun (p, r) => (.ternary p, r))
    | code => .error ("FromBytes failed to parse an instruction of code " ++ toString code)

/-! ### Textual format and parser

`Instruction::parse` / `Display for Instruction` of
`bytecode/src/instructions/mod.rs`. Text is embedded as `List Char`. The
per-variant operand formatters/parsers are not among the sampled sources
and are modelled from the spec's textual contract
(`MNEMONIC operand[, operand...];`). -/

/-- Decimal digit list of `n`, most significant first; `fuel` bounds the
recursion depth (any fuel above the value suffices). -/
def natDigitsAux : Nat → Nat → List Nat
  | 0, _ => []
  | fuel + 1, n => if n < 10 then [n] else natDigitsAux fuel (n / 10) ++ [n % 10]

/-- Decimal digits of `n`, most significant first. -/
def natDigits (n : Nat) : List Nat :=
  natDigitsAux (n + 1) n

/-- The character of a decimal digit. -/
def digitChar (d : Nat) : Char :=
  Char.ofNat (48 + d)

/-- Decimal notation of `n` as characters. -/
def natChars (n : Nat) : List Char :=
  (natDigits n).map digitChar

/-- Decimal digit test on a character (the parser's own, as in `nom`'s
`digit1`). -/
def isDigitCh (c : Char) : Bool :=
  48 ≤ c.toNat && c.toNat ≤ 57

/-- Greedily split off the leading decimal digits. -/
def takeDigits : List Char → List Char × List Char
  | [] => ([], [])
  | c :: cs =>
    if isDigitCh c then
      let (ds, rest) := takeDigits cs
      (c :: ds, rest)
    else ([], c :: cs)

/-- Value of a digit character list, most significant first. -/
def charsToNat (ds : List Char) : Nat :=
  ds.foldl (fun a c => 10 * a + (c.toNat - 48)) 0

/-- True when the input does not start with a decimal digit (so a greedy
digit parse just before it stops exactly there). -/
def noDigitHead : List Char → Bool
  | [] => true
  | c :: _ => !isDigitCh c

/-- Parse a decimal natural off the front of the input (at least one digit). -/
def parseNatChars (s : List Char) : Option (Nat × List Char) :=
  match takeDigits s with
  | ([], _) => none
  | (ds, rest) => some (charsToNat ds, rest)

/-- `nom`'s `tag`: match a literal token at the front of the input and return
the remainder. -/
def tagTok : List Char → List Char → Option (List Char)
  | [], input => some input
  | _ :: _, [] => none
  | c :: cs, d :: ds => if c = d then tagTok cs ds else none

/-- Drop the rest of a line (through the terminating newline). -/
def dropLine : List Char → List Char
  | [] => []
  | c :: cs => if c = '\n' then cs else dropLine cs

/-- Whitespace test of the sanitizer. -/
def isWsCh (c : Char) : Bool :=
  c = ' ' || c = '\n' || c = '\t'

/-- The sanitizer loop; `fuel` bounds the recursion depth (the input's length
always suffices, since every step consumes at least one character). -/
def sanitizeAux : Nat → List Char → List Char
  | 0, s => s
  | fuel + 1, s =>
    match s with
    | [] => []
    | c :: cs =>
      if c = '/' ∧ cs.head? = some '/' then sanitizeAux fuel (dropLine cs.tail)
      else if isWsCh c then sanitizeAux fuel cs
      else c :: cs

/-- Modelled from the spec: `Sanitizer::parse` ("parsing must … tolerate
leading whitespace/comments"; the `Sanitizer` is not among the sampled
sources). Skips leading whitespace and `//` line comments. -/
def sanitize (s : List Char) : List Char :=
  sanitizeAux s.length s

/-- Modelled from the spec: textual form of an operand — a register as
`r<index>`, a literal as `<value>u<type-tag>`. -/
def formatOperand : Operand → List Char
  | .register i => 'r' :: natChars i
  | .literal l => natChars l.val ++ ('u' :: natChars l.tyTag)

/-- Parse a literal `<value>u<type-tag>`. -/
def parseLiteral (s : List Char) : Option (Operand × List Char) :=
  match parseNatChars s with
  | some (v, rest) =>
    match rest with
    | [] => none
    | c :: rest' =>
      if c = 'u' then
        match parseNatChars rest' with
        | some (t, rest'') => some (.literal ⟨t, v⟩, rest'')
        | none => none
      else none
  | none => none

/-- Parse an operand: `r<index>` or `<value>u<type-tag>`. -/
def parseOperand (s : List Char) : Option (Operand × List Char) :=
  match s with
  | [] => none
  | c :: rest =>
    if c = 'r' then
      match parseNatChars rest with
      | some (i, rest') => some (.register i, rest')
      | none => none
    else parseLiteral (c :: rest)

/-- Parse a destination register token `r<index>`. -/
def parseRegisterIdx (s : List Char) : Option (Nat × List Char) :=
  match s with
  | [] => none
  | c :: rest => if c = 'r' then parseNatChars rest else none

/-- Modelled from the spec: textual payload of a unary opcode — the operand,
then the destination register as the final comma-separated operand. -/
def formatUnary (p : UnaryOp) : List Char :=
  formatOperand p.operand ++ (',' :: ' ' :: 'r' :: natChars p.destination)

/-- Modelled from the spec: textual payload of a binary opcode. -/
def formatBinary (p : BinaryOp) : List Char :=
  formatOperand p.first ++ (',' :: ' ' :: formatOperand p.second)
    ++ (',' :: ' ' :: 'r' :: natChars p.destination)

/-- Modelled from the spec: textual payload of the ternary opcode. -/
def formatTernary (p : TernaryOp) : List Char :=
  formatOperand p.condition ++ (',' :: ' ' :: formatOperand p.first)
    ++ (',' :: ' ' :: formatOperand p.second)
    ++ (',' :: ' ' :: 'r' :: natChars p.destination)

/-- Parse a binary payload: two operands then a destination register,
comma-separated. -/
def parseBinary (s : List Char) : Option (BinaryOp × List Char) :=
  match parseOperand s with
  | some (o₁, s₁) =>
    match tagTok [ ',', ' ' ] s₁ with
    | some s₂ =>
      match parseOperand s₂ with
      | some (o₂, s₃) =>
        match tagTok [ ',', ' ' ] s₃ with
        | some s₄ =>
          match parseRegisterIdx s₄ with
          | some (d, s₅) => some (⟨o₁, o₂, d⟩, s₅)
          | none => none
        | none => none
      | none => none
    | none => none
  | none => none

/-- The payload's own `Display` output, per variant shape. -/
def Instruction.payloadChars : Instruction → List Char
  | .add p => formatBinary p
  | .div p => formatBinary p
  | .double p => formatUnary p
  | .equal p => formatBinary p
  | .greaterThan p => formatBinary p
  | .greaterThanOrEqual p => formatBinary p
  | .inv p => formatUnary p
  | .lessThan p => formatBinary p
  | .lessThanOrEqual p => formatBinary p
  | .mul p => formatBinary p
  | .neg p => formatUnary p
  | .notEqual p => formatBinary p
  | .pow p => formatBinary p
  | .square p => formatUnary p
  | .sub p => formatBinary p
  | .ternary p => formatTernary p

/-- `Display for Instruction`: `write!(f, "{} {};", self.mnemonic(), instruction)`. -/
def Instruction.format (i : Instruction) : List Char :=
  i.mnemonic ++ (' ' :: i.payloadChars) ++ [';']

/-- `Instruction::parse`: sanitize, then try, in order, exactly the two
alternatives the source lists — `add` then `sub`, each as
`preceded(pair(tag(mnemonic), tag(" ")), payload-parser)` — then consume the
terminating semicolon. -/
def Instruction.parseChars (s : List Char) : Option (Instruction × List Char) :=
  let s := sanitize s
  let alt : Option (Instruction × List Char) :=
    match tagTok [ 'a', 'd', 'd', ' ' ] s with
    | some s' =>
      match parseBinary s' with
      | some (p, s'') => some (.add p, s'')
      | none => none
    | none =>
      match tagTok [ 's', 'u', 'b', ' ' ] s with
      | some s' =>
        match parseBinary s' with
        | some (p, s'') => some (.sub p, s'')
        | none => none
      | none => none
  match alt with
  | some (instr, s') =>
    match tagTok [ ';' ] s' with
    | some s'' => some (instr, s'')
    | none => none
  | none => none

/-- The two variants the source's `alt` list covers. -/
def Instruction.isParseAlternative : Instruction → Bool
  | .add _ => true
  | .sub _ => true
  | _ => false

end Bytecode

/-! ## Part 2: circuit group scalar multiplication
(circuits/types/group/src/mul.rs)

The circuit types are embedded at the level of their ejected values: the
underlying native group of the environment is an arbitrary additive
commutative group `G` (the field/curve arithmetic itself is an external
collaborator per the spec); a circuit `Boolean` / `Group` carries the value
it ejects. -/

namespace Circuits

/-- A circuit boolean, embedded as the value it ejects. -/
structure CBool where
  value : Bool
deriving DecidableEq, Repr

/-- A circuit group element over native group `G`, embedded as the value it
ejects. -/
structure CGroup (G : Type) where
  value : G
deriving DecidableEq, Repr

/-- `Group::zero()`: the additive identity. -/
def CGroup.zero (G : Type) [AddCommGroup G] : CGroup G :=
  ⟨0⟩

/-- Circuit group addition (ejected value of `&base + &output`). -/
def CGroup.add {G : Type} [AddCommGroup G] (a b : CGroup G) : CGroup G :=
  ⟨a.value + b.value⟩

/-- Circuit group doubling (ejected value of `output.double()`). -/
def CGroup.double {G : Type} [AddCommGroup G] (a : CGroup G) : CGroup G :=
  ⟨a.value + a.value⟩

/-- Circuit ternary on group elements: the ejected value selects `first` when
the condition's value is true, `second` otherwise. -/
def CGroup.ternary {G : Type} (bit : CBool) (first second : CGroup G) : CGroup G :=
  if bit.value then first else second

/-- The loop body of `MulAssign<&[Boolean<E>]> for Group<E>`: double the
accumulator, then ternary-select between `base + output` and `output` on the
scalar bit. -/
def CGroup.mulStep {G : Type} [AddCommGroup G] (base output : CGroup G) (bit : CBool) :
    CGroup G :=
  CGroup.ternary bit (CGroup.add base output.double) output.double

/-- `MulAssign<&[Boolean<E>]> for Group<E>` (`mul_assign`): starting from
`Group::zero()`, fold the loop body over the scalar bits (most significant
first, as produced by `to_bits_be`). -/
def CGroup.mulBits {G : Type} [AddCommGroup G] (base : CGroup G) (bits : List CBool) :
    CGroup G :=
  bits.foldl (CGroup.mulStep base) (CGroup.zero G)

/-- The natural number denoted by a big-endian bit sequence. -/
def bitsBEToNat (bits : List Bool) : Nat :=
  bits.foldl (fun n b => 2 * n + (if b then 1 else 0)) 0

end Circuits

/-! ## Part 3: `EncryptedRecord` (dpc/src/record/encrypted.rs) -/

namespace Dpc

/-- Modelled from the spec: the record payload; out of scope of the core
("record (encryption/commitment) formats"), kept as its fixed-size byte
content. -/
def payloadSize : Nat := 128

/-- Size in bytes of a `MerkleTreeDigest` program id. -/
def programIdSize : Nat := 32

/-- Size in bytes of a serial-number nonce. -/
def nonceSize : Nat := 32

/-- Size in bytes of a commitment randomness. -/
def randomnessSize : Nat := 32

/-- `Payload::default()`: the all-zero payload. -/
def payloadDefault : List Nat :=
  List.replicate payloadSize 0

/-- The decrypted record constructed by `EncryptedRecord::decrypt`
(`Record::from(...)`). -/
structure Record where
  programId : List Nat
  owner : Nat
  isDummy : Bool
  value : Nat
  payload : List Nat
  serialNumberNonce : List Nat
  commitmentRandomness : List Nat
deriving DecidableEq, Repr

/-- Read `n` bytes off the front of a stream, failing when truncated. -/
def readBytes (n : Nat) (bs : List Nat) : Except String (List Nat × List Nat) :=
  if bs.length < n then .error "truncated stream"
  else .ok (bs.take n, bs.drop n)

/-- Little-endian value of a byte list. -/
def bytesToNatLE (bs : List Nat) : Nat :=
  bs.foldr (fun b acc => b % 256 + 256 * acc) 0

/-- Modelled from the spec: `Address::from_view_key` — the account address
derived from the view key; key management is an external collaborator, so
the derivation is kept abstract as an injective tagging of the key. -/
def addressFromViewKey (viewKey : Nat) : Nat :=
  viewKey

/-- `EncryptedRecord::decrypt`, from the decrypted plaintext on: parse the
program id, value (`u64` little-endian), payload, serial-number nonce and
commitment randomness in order; derive the owner from the view key; compute
`dummy_program = program_id.clone()` and
`is_dummy = (value == 0) && (payload == Payload::default()) && (program_id == dummy_program)`;
build the record. The account encryption scheme itself is an external
collaborator (spec: out of scope), so the function takes the decrypted
plaintext bytes. -/
def decryptPlaintext (viewKey : Nat) (plaintext : List Nat) : Except String Record :=
  match readBytes programIdSize plaintext with
  | .error e => .error e
  | .ok (programId, r₁) =>
    match readBytes 8 r₁ with
    | .error e => .error e
    | .ok (valueBytes, r₂) =>
      match readBytes payloadSize r₂ with
      | .error e => .error e
      | .ok (payload, r₃) =>
        match readBytes nonceSize r₃ with
        | .error e => .error e
        | .ok (serialNumberNonce, r₄) =>
          match readBytes randomnessSize r₄ with
          | .error e => .error e
          | .ok (commitmentRandomness, _) =>
            let value := bytesToNatLE valueBytes
            let owner := addressFromViewKey viewKey
            let dummyProgram := programId
            let isDummy :=
              (value == 0) && (payload == payloadDefault) && (programId == dummyProgram)
            .ok ⟨programId, owner, isDummy, value, payload, serialNumberNonce,
              commitmentRandomness⟩

/-- `EncryptedRecord`: a ciphertext byte vector. -/
structure EncryptedRecord where
  ciphertext : List Nat
deriving DecidableEq, Repr

/-- `EncryptedRecord::new`. -/
def EncryptedRecord.new (ciphertext : List Nat) : EncryptedRecord :=
  ⟨ciphertext⟩

/-- `ToBytes for EncryptedRecord` (`write_le`): the ciphertext length cast to
`u16` (truncating, as `as u16` does), little-endian, then the ciphertext
bytes. -/
def EncryptedRecord.writeLe (r : EncryptedRecord) : List Nat :=
  Bytecode.u16le r.ciphertext.length ++ r.ciphertext

/-- `FromBytes for EncryptedRecord` (`read_le`): read the `u16` length, then
exactly that many ciphertext bytes. -/
def EncryptedRecord.readLe (bs : List Nat) : Except String (EncryptedRecord × List Nat) :=
  match Bytecode.readU16 bs with
  | .error e => .error e
  | .ok (len, rest) =>
    match readBytes len rest with
    | .error e => .error e
    | .ok (ciphertext, rest') => .ok (EncryptedRecord.new ciphertext, rest')

end Dpc

/-! ## Part 4: `Block` byte codec (synthesizer/src/block/bytes.rs) -/

namespace Ledger

/-- A block, as constructed by `Block::from`: the stored hash plus the
components. Component types (hashes, header, transactions, coinbase,
signature) are out of scope of the core and modelled as bounded naturals /
lists thereof, each serialized little-endian in 4 bytes. -/
structure Block where
  blockHash : Nat
  previousHash : Nat
  header : Nat
  transactions : List Nat
  coinbase : Option Nat
  signature : Nat
deriving DecidableEq, Repr

/-- 4-byte little-endian encoding of a (truncated) component word. -/
def u32le (n : Nat) : List Nat :=
  [n % 256, n / 256 % 256, n / 65536 % 256, n / 16777216 % 256]

/-- Read a 4-byte little-endian word. -/
def readU32 : List Nat → Except String (Nat × List Nat)
  | b0 :: b1 :: b2 :: b3 :: rest =>
    .ok (b0 % 256 + 256 * (b1 % 256) + 65536 * (b2 % 256) + 16777216 * (b3 % 256), rest)
  | _ => .error "truncated u32"

/-- Serialize the transactions as a 4-byte count followed by 4-byte entries. -/
def writeTransactions (ts : List Nat) : List Nat :=
  u32le ts.length ++ ts.flatMap u32le

/-- Read `n` 4-byte transaction entries. -/
def readTransactionsAux : Nat → List Nat → Except String (List Nat × List Nat)
  | 0, bs => .ok ([], bs)
  | n + 1, bs =>
    match readU32 bs with
    | .error e => .error e
    | .ok (t, rest) =>
      match readTransactionsAux n rest with
      | .error e => .error e
      | .ok (ts, rest') => .ok (t :: ts, rest')

/-- Read the transactions: count, then entries. -/
def readTransactions (bs : List Nat) : Except String (List Nat × List Nat) :=
  match readU32 bs with
  | .error e => .error e
  | .ok (n, rest) => readTransactionsAux n rest

/-- Modelled from the spec: the block hash recomputed from the components
(`block.hash()`; the hash function is an external collaborator, modelled as
an executable mixing fold over the serialized components, truncated to 32
bits). -/
def hashOf (previousHash header : Nat) (transactions : List Nat) (coinbase : Option Nat)
    (signature : Nat) : Nat :=
  let seed := (previousHash % 4294967296) * 31 + header % 4294967296
  let withTxs := transactions.foldl (fun h t => (h * 31 + t % 4294967296) % 4294967296)
    (seed % 4294967296)
  let withCoinbase :=
    match coinbase with
    | none => (withTxs * 31) % 4294967296
    | some c => (withTxs * 31 + 1 + c % 4294967296) % 4294967296
  (withCoinbase * 31 + signature % 4294967296) % 4294967296

/-- `Block::from`: construct the block from its components, computing the
block hash from them. -/
def Block.from (previousHash header : Nat) (transactions : List Nat)
    (coinbase : Option Nat) (signature : Nat) : Block :=
  ⟨hashOf previousHash header transactions coinbase signature,
    previousHash, header, transactions, coinbase, signature⟩

/-- `block.hash()`: the stored block hash. -/
def Block.hash (b : Block) : Nat :=
  b.blockHash

/-- `ToBytes for Block` (`write_le`): version `0u8`, stored block hash,
previous hash, header, transactions, coinbase variant byte (+ payload),
signature. -/
def Block.writeLe (b : Block) : List Nat :=
  0 :: (u32le b.blockHash ++ u32le b.previousHash ++ u32le b.header
    ++ writeTransactions b.transactions
    ++ (match b.coinbase with
        | none => [0]
        | some c => 1 :: u32le c)
    ++ u32le b.signature)

/-- The reading prefix of `FromBytes for Block` (`read_le`): check the
version byte and read the stored hash and the components, in source order. -/
def Block.readLeRaw (bs : List Nat) :
    Except String (Nat × Nat × Nat × List Nat × Option Nat × Nat × List Nat) :=
  match bs with
  | [] => .error "truncated stream"
  | version :: bs =>
    if version ≠ 0 then .error "Invalid block version"
    else
      match readU32 bs with
      | .error e => .error e
      | .ok (blockHash, r₁) =>
        match readU32 r₁ with
        | .error e => .error e
        | .ok (previousHash, r₂) =>
          match readU32 r₂ with
          | .error e => .error e
          | .ok (header, r₃) =>
            match readTransactions r₃ with
            | .error e => .error e
            | .ok (transactions, r₄) =>
              match r₄ with
              | [] => .error "truncated stream"
              | coinbaseVariant :: r₅ =>
                let coinbaseResult : Except String (Option Nat × List Nat) :=
                  if coinbaseVariant = 0 then .ok (none, r₅)
                  else if coinbaseVariant = 1 then
                    match readU32 r₅ with
                    | .error e => .error e
                    | .ok (c, r₆) => .ok (some c, r₆)
                  else .error "Invalid coinbase variant"
                match coinbaseResult with
                | .error e => .error e
                | .ok (coinbase, r₆) =>
                  match readU32 r₆ with
                  | .error e => .error e
                  | .ok (signature, r₇) =>
                    .ok (blockHash, previousHash, header, transactions, coinbase,
                      signature, r₇)

/-- `FromBytes for Block` (`read_le`): read the stored hash and the
components, rebuild the block with `Block::from`, then accept it only when
the stored hash equals the recomputed one. -/
def Block.readLe (bs : List Nat) : Except String (Block × List Nat) :=
  match Block.readLeRaw bs with
  | .error e => .error e
  | .ok (blockHash, previousHash, header, transactions, coinbase, signature, r₇) =>
    if blockHash == (Block.from previousHash header transactions coinbase signature).hash
    then .ok (Block.from previousHash header transactions coinbase signature, r₇)
    else .error "Mismatching block hash, possible data corruption"

/-- Bounds under which the modelled 4-byte component codec is lossless. -/
def Block.wellFormed (b : Block) : Prop :=
  b.blockHash < 4294967296 ∧ b.previousHash < 4294967296 ∧ b.header < 4294967296
    ∧ b.transactions.length < 4294967296 ∧ (∀ t ∈ b.transactions, t < 4294967296)
    ∧ (∀ c ∈ b.coinbase, c < 4294967296) ∧ b.signature < 4294967296

end Ledger

/-! ## Part 5: stack evaluation (synthesizer/src/process/stack/evaluate.rs)

`evaluate_closure` and `evaluate_function` are embedded faithfully to the
source's control flow. The surrounding machinery (values, registers,
requests, the call stack enum, instruction evaluation) is not among the
sampled sources and is modelled from the spec (§3, §4.2, §4.3, §6). The
source mutates registers and the shared authorization in place; the
embedding passes that state explicitly and additionally records a ghost
event trace marking, in source order, the effects the claims speak about
(register-file initialization, input stores, instruction evaluations). -/

namespace Synthesizer

/-- Wrap a string in single-quote characters, as the source's error messages
do with `{}` display of names. -/
def quoted (s : String) : String :=
  String.singleton (Char.ofNat 39) ++ s ++ String.singleton (Char.ofNat 39)

/-- Modelled from the spec: declared value types (enough of the type system
to check conformance of values against declared signatures). -/
inductive ValType where
  | field
  | boolean
  | address
deriving DecidableEq, Repr

/-- Modelled from the spec: the value model — typed literals. -/
inductive Value where
  | field (n : Nat)
  | boolean (b : Bool)
  | address (a : Nat)
deriving DecidableEq, Repr

/-- The declared type a value conforms to. -/
def Value.typeOf : Value → ValType
  | .field _ => .field
  | .boolean _ => .boolean
  | .address _ => .address

/-- Modelled from the spec: an operand is a literal, a register index, the
program id, or the caller (§3). -/
inductive Operand where
  | literal (v : Value)
  | register (r : Nat)
  | programID (pid : Nat)
  | caller
deriving DecidableEq, Repr

/-- `program_id.to_address()`: the address of a program id (an external
conversion, modelled as the identity tagging). -/
def programIdToAddress (pid : Nat) : Nat :=
  pid

/-- Modelled from the spec: a signed request (§3) — network id, program id,
function name, input values, caller, transition view key, transition
commitment, and the validity of its signature (signing is an external
collaborator, so the signature is carried as its verification outcome). -/
structure Request where
  networkId : Nat
  programId : String
  functionName : String
  inputs : List Value
  caller : Nat
  tvk : Nat
  tcm : Nat
  sigValid : Bool
deriving DecidableEq, Repr

/-- `Authorization::next()`: destructively take the next request (the
`Authorization` type is not among the sampled sources; modelled from the
spec as the ordered request queue, §3). -/
def authNext : List Request → Except String (Request × List Request)
  | [] => .error "The authorization is empty"
  | r :: rest => .ok (r, rest)

/-- `Authorization::peek_next()`: read the next request non-destructively. -/
def authPeekNext : List Request → Except String Request
  | [] => .error "The authorization is empty"
  | r :: _ => .ok r

/-- Modelled from the spec: the call stack mode selector (§4.3) —
`Authorize(pending requests, signing key, authorization-in-progress)`,
`Evaluate(authorization)`, `Execute(authorization, execution-trace sink)`. -/
inductive CallStack where
  | authorize (requests : List Request) (privateKey : Nat) (authorization : List Request)
  | evaluate (authorization : List Request)
  | execute (authorization : List Request) (traceSink : List String)
deriving DecidableEq, Repr

/-- Ghost events marking, in source order, the observable effects of one
`evaluate_closure` / `evaluate_function` call. -/
inductive Event where
  | requestRetrieved (r : Request)
  | registersInit
  | requestVerified
  | inputStored (reg : Nat)
  | instructionEvaluated
deriving DecidableEq, Repr

/-- Modelled from the spec: the register file (§3, §4.2) — the active call
stack frame, the function's register-type table, the single-assignment
register contents, and the write-once call-scoped caller and tvk. -/
structure Registers where
  callStack : CallStack
  registerTypes : List (Nat × ValType)
  memory : List (Nat × Value)
  caller : Option Nat
  tvk : Option Nat
deriving DecidableEq, Repr

/-- `Registers::new(call_stack, register_types)`. -/
def Registers.new (cs : CallStack) (types : List (Nat × ValType)) : Registers :=
  ⟨cs, types, [], none, none⟩

/-- `Registers::set_caller`. -/
def Registers.setCaller (r : Registers) (a : Nat) : Registers :=
  { r with caller := some a }

/-- `Registers::set_tvk`. -/
def Registers.setTvk (r : Registers) (t : Nat) : Registers :=
  { r with tvk := some t }

/-- Modelled from the spec: `Registers::store` (§4.2) — fails if the register
already holds a value (single-assignment) or if the value's type does not
match the declared type for that register. -/
def Registers.store (r : Registers) (reg : Nat) (v : Value) : Except String Registers :=
  match r.memory.lookup reg with
  | some _ => .error ("Register r" ++ toString reg ++ " is already set")
  | none =>
    match r.registerTypes.lookup reg with
    | none => .error ("Register r" ++ toString reg ++ " is not declared")
    | some ty =>
      if v.typeOf = ty then .ok { r with memory := r.memory ++ [(reg, v)] }
      else .error ("Register r" ++ toString reg ++ " type mismatch")

/-- Modelled from the spec: `Registers::load` (§4.2) — resolve an operand,
failing when a register operand names an unset register or the caller is
unset. -/
def Registers.load (r : Registers) (op : Operand) : Except String Value :=
  match op with
  | .literal v => .ok v
  | .register reg =>
    match r.memory.lookup reg with
    | some v => .ok v
    | none => .error ("Register r" ++ toString reg ++ " is not set")
  | .programID pid => .ok (.address (programIdToAddress pid))
  | .caller =>
    match r.caller with
    | some a => .ok (.address a)
    | none => .error "Caller is not set"

/-- Modelled from the spec: the opcode of a synthesizer instruction (§4.1;
a representative subset of the catalog — arithmetic, comparison, ternary). -/
inductive InstrOp where
  | add
  | mul
  | div
  | isEq
  | ternary
deriving DecidableEq, Repr

/-- Modelled from the spec: a synthesizer instruction — opcode, input
operands, destination register (§3). -/
structure Instr where
  op : InstrOp
  operands : List Operand
  destination : Nat
deriving DecidableEq, Repr

/-- Modelled from the spec: the operation applied by an opcode to its
resolved input values (§4.1). The field arithmetic itself is an external
capability, stood in for by natural-number arithmetic; division by the
additive identity is a recoverable error. -/
def applyOp : InstrOp → List Value → Except String Value
  | .add, [.field a, .field b] => .ok (.field (a + b))
  | .mul, [.field a, .field b] => .ok (.field (a * b))
  | .div, [.field a, .field b] =>
    if b = 0 then .error "Division by zero" else .ok (.field (a / b))
  | .isEq, [a, b] => .ok (.boolean (a == b))
  | .ternary, [.boolean c, a, b] => .ok (if c then a else b)
  | _, _ => .error "Malformed operands"

/-- The mnemonic of a synthesizer opcode. -/
def InstrOp.mnemonicStr : InstrOp → String
  | .add => "add"
  | .mul => "mul"
  | .div => "div"
  | .isEq => "is.eq"
  | .ternary => "ternary"

/-- Textual form of a value. -/
def Value.toText : Value → String
  | .field n => toString n ++ "field"
  | .boolean b => if b then "true" else "false"
  | .address a => "aleo" ++ toString a

/-- Textual form of an operand. -/
def Operand.toText : Operand → String
  | .literal v => v.toText
  | .register r => "r" ++ toString r
  | .programID pid => "program" ++ toString pid
  | .caller => "self.caller"

/-- Textual form of a synthesizer instruction (its `Display`), used by the
instruction-naming error wrapper. -/
def Instr.toText (i : Instr) : String :=
  i.op.mnemonicStr ++ " " ++ String.intercalate " " (i.operands.map Operand.toText)
    ++ " into r" ++ toString i.destination

/-- Modelled from the spec: `Instruction::evaluate` (§4.1) — resolve the
input operands, apply the operation, store at the destination register. -/
def Instr.evaluate (i : Instr) (regs : Registers) : Except String Registers :=
  match i.operands.mapM regs.load with
  | .error e => .error e
  | .ok vs =>
    match applyOp i.op vs with
    | .error e => .error e
    | .ok v => regs.store i.destination v

/-- Modelled from the spec: a function declaration — name, declared input
registers and types in order, instruction body, declared output operands and
types, and the precomputed register-type table (§3). -/
structure FunctionDecl where
  name : String
  inputs : List (Nat × ValType)
  instructions : List Instr
  outputs : List (Operand × ValType)
  registerTypes : List (Nat × ValType)
deriving DecidableEq, Repr

/-- `function.input_types()`. -/
def FunctionDecl.inputTypes (f : FunctionDecl) : List ValType :=
  f.inputs.map Prod.snd

/-- `function.output_types()`. -/
def FunctionDecl.outputTypes (f : FunctionDecl) : List ValType :=
  f.outputs.map Prod.snd

/-- Modelled from the spec: a closure declaration (same shape as a function,
not externally callable, §3). -/
structure ClosureDecl where
  name : String
  inputs : List (Nat × ValType)
  instructions : List Instr
  outputs : List (Operand × ValType)
  registerTypes : List (Nat × ValType)
deriving DecidableEq, Repr

/-- Modelled from the spec: the stack — the program id and the program's
immutable function and closure definitions (§6). -/
structure Stack where
  programId : String
  functions : List FunctionDecl
  closures : List ClosureDecl
deriving DecidableEq, Repr

/-- `Stack::get_function`: look up a function by name. -/
def Stack.getFunction (s : Stack) (name : String) : Except String FunctionDecl :=
  match s.functions.find? (fun f => f.name == name) with
  | some f => .ok f
  | none => .error ("Function " ++ name ++ " does not exist")

/-- `Stack::get_register_types`: the register-type table of a function or
closure, by name. -/
def Stack.getRegisterTypes (s : Stack) (name : String) :
    Except String (List (Nat × ValType)) :=
  match s.functions.find? (fun f => f.name == name) with
  | some f => .ok f.registerTypes
  | none =>
    match s.closures.find? (fun c => c.name == name) with
    | some c => .ok c.registerTypes
    | none => .error ("Register types for " ++ name ++ " do not exist")

/-- `Stack::get_closure`: look up a closure by name. -/
def Stack.getClosure (s : Stack) (name : String) : Except String ClosureDecl :=
  match s.closures.find? (fun c => c.name == name) with
  | some c => .ok c
  | none => .error ("Closure " ++ name ++ " does not exist")

/-- Modelled from the spec: `Request::verify` (§3, §6) — signature validity
plus type conformance of the inputs with the target function's declared
input types. -/
def Request.verify (r : Request) (inputTypes : List ValType) : Bool :=
  r.sigValid && r.inputs.length == inputTypes.length
    && ((r.inputs.zip inputTypes).all (fun p => p.1.typeOf == p.2))

/-- Modelled from the spec: `N::ID`, the network id constant. -/
def networkID : Nat := 3

/-- Modelled from the spec: a response (§3, §4.4 step (f)) — the outputs
packaged with the originating request's network id, program id, function
name, arity, tvk and transition commitment. -/
structure Response where
  networkId : Nat
  programId : String
  functionName : String
  numInputs : Nat
  tvk : Nat
  tcm : Nat
  outputs : List Value
  outputTypes : List ValType
  outputRegisters : List (Option Nat)
deriving DecidableEq, Repr

/-- `Response::new`. -/
def Response.new (networkId : Nat) (programId : String) (functionName : String)
    (numInputs : Nat) (tvk tcm : Nat) (outputs : List Value)
    (outputTypes : List ValType) (outputRegisters : List (Option Nat)) : Response :=
  ⟨networkId, programId, functionName, numInputs, tvk, tcm, outputs, outputTypes,
    outputRegisters⟩

/-- The input-storing loop shared by `evaluate_closure` and
`evaluate_function`: store each `(register, input)` pair in order, stopping
at the first failure; emits one `inputStored` event per successful store. -/
def storeInputs (pairs : List (Nat × Value)) (regs : Registers) :
    Except String Registers × List Event :=
  match pairs with
  | [] => (.ok regs, [])
  | (reg, v) :: rest =>
    match regs.store reg v with
    | .error e => (.error e, [])
    | .ok regs' =>
      let out := storeInputs rest regs'
      (out.1, Event.inputStored reg :: out.2)

/-- The instruction loop of `evaluate_closure` / `evaluate_function`:
evaluate each instruction in sequence; the first failure aborts the call
with an error naming the instruction's textual form and the cause; emits one
`instructionEvaluated` event per successful instruction. -/
def evalInstructions (instrs : List Instr) (regs : Registers) :
    Except String Registers × List Event :=
  match instrs with
  | [] => (.ok regs, [])
  | i :: rest =>
    match i.evaluate regs with
    | .error e =>
      (.error ("Failed to evaluate instruction (" ++ i.toText ++ "): " ++ e), [])
    | .ok regs' =>
      let out := evalInstructions rest regs'
      (out.1, Event.instructionEvaluated :: out.2)

/-- The output-loading loop of `evaluate_closure` / `evaluate_function`:
resolve each declared output operand — a literal directly, a register from
the register file, the program id and the caller as addresses. -/
def loadOutputs (operands : List Operand) (regs : Registers) :
    Except String (List Value) :=
  operands.mapM (fun operand =>
    match operand with
    | .literal v => .ok v
    | .register r => regs.load (.register r)
    | .programID pid => .ok (.address (programIdToAddress pid))
    | .caller =>
      match regs.caller with
      | some a => .ok (.address a)
      | none => .error "Caller is not set")

/-- `Stack::evaluate_closure`: arity check, fresh register file bound to the
call stack / caller / tvk, input stores, instruction loop, output loads.
Returns the result together with the ghost event trace. -/
def evaluateClosure (stack : Stack) (closure : ClosureDecl) (inputs : List Value)
    (callStack : CallStack) (caller : Nat) (tvk : Nat) :
    Except String (List Value) × List Event :=
  if closure.inputs.length ≠ inputs.length then
    (.error ("Expected " ++ toString closure.inputs.length ++ " inputs, found "
      ++ toString inputs.length), [])
  else
    match stack.getRegisterTypes closure.name with
    | .error e => (.error e, [])
    | .ok types =>
      let regs := ((Registers.new callStack types).setCaller caller).setTvk tvk
      let outIn := storeInputs ((closure.inputs.map Prod.fst).zip inputs) regs
      let evs := Event.registersInit :: outIn.2
      match outIn.1 with
      | .error e => (.error e, evs)
      | .ok regs =>
        let outI := evalInstructions closure.instructions regs
        let evs := evs ++ outI.2
        match outI.1 with
        | .error e => (.error e, evs)
        | .ok regs =>
          (loadOutputs (closure.outputs.map Prod.fst) regs, evs)

/-- The body of `evaluate_function` after the request has been retrieved:
network-id check, function lookup, arity check, register-file
initialization, request verification, input stores, instruction loop,
output loads, response packaging. `cs` is the call stack as left by the
retrieval step (popped for `Evaluate`, replicated for `Execute`). -/
def evaluateFunctionCore (stack : Stack) (request : Request) (cs : CallStack) :
    Except String Response × List Event :=
  let evs0 := [Event.requestRetrieved request]
  if request.networkId ≠ networkID then
    (.error ("Network ID mismatch. Expected " ++ toString networkID ++ ", but found "
      ++ toString request.networkId), evs0)
  else
    match stack.getFunction request.functionName with
    | .error e => (.error e, evs0)
    | .ok function =>
      let inputs := request.inputs
      let caller := request.caller
      let tvk := request.tvk
      if function.inputs.length ≠ inputs.length then
        (.error ("Function " ++ quoted function.name ++ " in the program "
          ++ quoted stack.programId ++ " expects " ++ toString function.inputs.length
          ++ " inputs, but " ++ toString inputs.length ++ " were provided."),
          evs0)
      else
        match stack.getRegisterTypes function.name with
        | .error e => (.error e, evs0)
        | .ok types =>
          let regs := ((Registers.new cs types).setCaller caller).setTvk tvk
          let evs1 := evs0 ++ [Event.registersInit]
          if ¬ (request.verify function.inputTypes = true) then
            (.error "Request is invalid", evs1)
          else
            let evs2 := evs1 ++ [Event.requestVerified]
            let outIn := storeInputs ((function.inputs.map Prod.fst).zip inputs) regs
            let evs3 := evs2 ++ outIn.2
            match outIn.1 with
            | .error e => (.error e, evs3)
            | .ok regs =>
              let outI := evalInstructions function.instructions regs
              let evs4 := evs3 ++ outI.2
              match outI.1 with
              | .error e => (.error e, evs4)
              | .ok regs =>
                let outputOperands := function.outputs.map Prod.fst
                match loadOutputs outputOperands regs with
                | .error e => (.error e, evs4)
                | .ok outputs =>
                  let outputRegisters := outputOperands.map (fun operand =>
                    match operand with
                    | .register r => some r
                    | _ => none)
                  (.ok (Response.new request.networkId stack.programId function.name
                    request.inputs.length request.tvk request.tcm outputs
                    function.outputTypes outputRegisters), evs4)

/-- `Stack::evaluate_function`: retrieve the next request based on the call
stack mode — `Evaluate` pulls it destructively (`next`), `Execute` peeks it
(`peek_next`) and replicates the call stack, any other mode is an illegal
operation — then run the function body. Returns the result, the call stack
as left behind (carrying the authorization state), and the ghost event
trace. -/
def evaluateFunction (stack : Stack) (callStack : CallStack) :
    Except String Response × CallStack × List Event :=
  match callStack with
  | .evaluate auth =>
    (match authNext auth with
    | .error e => (.error e, CallStack.evaluate auth, [])
    | .ok (request, rest) =>
      let out := evaluateFunctionCore stack request (.evaluate rest)
      (out.1, CallStack.evaluate rest, out.2))
  | .execute auth sink =>
    (match authPeekNext auth with
    | .error e => (.error e, CallStack.execute auth sink, [])
    | .ok request =>
      let out := evaluateFunctionCore stack request (.execute auth sink)
      (out.1, CallStack.execute auth sink, out.2))
  | .authorize requests key auth =>
    (.error "Illegal operation: call stack must be `Evaluate` or `Execute` in `evaluate_function`.",
      CallStack.authorize requests key auth, [])

/-- A sample function declaration (one field input, no instructions) used by
the concrete witnesses. -/
def sampleFunction : FunctionDecl :=
  ⟨"transfer", [(0, ValType.field)], [], [(Operand.register 0, ValType.field)],
    [(0, ValType.field)]⟩

/-- A sample closure declaration used by the concrete witnesses. -/
def sampleClosure : ClosureDecl :=
  ⟨"helper", [(0, ValType.field)], [], [(Operand.register 0, ValType.field)],
    [(0, ValType.field)]⟩

/-- A sample stack holding the sample function and closure. -/
def sampleStack : Stack :=
  ⟨"token", [sampleFunction], [sampleClosure]⟩

/-- A well-typed request for the sample function whose signature does not
verify. -/
def sampleBadSigRequest : Request :=
  ⟨3, "token", "transfer", [Value.field 7], 9, 11, 13, false⟩

/-- A signed request for the sample function carrying the wrong number of
inputs. -/
def sampleBadArityRequest : Request :=
  ⟨3, "token", "transfer", [], 9, 11, 13, true⟩

end Synthesizer

/-! ## Theorems -/

namespace Bytecode

theorem decodeVarint_encodeVarintAux (fuel : Nat) :
    ∀ (n : Nat) (rest : List Nat), n < fuel →
      decodeVarint (encodeVarintAux fuel n ++ rest) = .ok (n, rest) := by
  induction fuel with
  | zero => intro n rest h; omega
  | succ fuel ih =>
    intro n rest h
    by_cases h128 : n < 128
    · simp [encodeVarintAux, decodeVarint, h128]
    · have hpos : 0 < n := by omega
      have hdiv : n / 128 < fuel := by
        have h1 : n / 128 < n := Nat.div_lt_self hpos (by omega)
        omega
      have hmod : n % 128 < 128 := Nat.mod_lt _ (by omega)
      simp only [encodeVarintAux, if_neg h128, List.cons_append, decodeVarint]
      rw [if_neg (by omega)]
      rw [ih (n / 128) rest hdiv]
      simp only [Except.ok.injEq, Prod.mk.injEq, and_true]
      omega

theorem decodeVarint_encodeVarint (n : Nat) (rest : List Nat) :
    decodeVarint (encodeVarint n ++ rest) = .ok (n, rest) :=
  decodeVarint_encodeVarintAux (n + 1) n rest (Nat.lt_succ_self n)

theorem decodeOperand_encodeOperand (o : Operand) (rest : List Nat) :
    decodeOperand (encodeOperand o ++ rest) = .ok (o, rest) := by
  cases o with
  | register i =>
    simp [encodeOperand, decodeOperand, decodeVarint_encodeVarint]
  | literal l =>
    simp [encodeOperand, decodeOperand, List.append_assoc, decodeVarint_encodeVarint]

theorem decodeUnary_encodeUnary (p : UnaryOp) (rest : List Nat) :
    decodeUnary (encodeUnary p ++ rest) = .ok (p, rest) := by
  simp [encodeUnary, decodeUnary, List.append_assoc, decodeOperand_encodeOperand,
    decodeVarint_encodeVarint]

theorem decodeBinary_encodeBinary (p : BinaryOp) (rest : List Nat) :
    decodeBinary (encodeBinary p ++ rest) = .ok (p, rest) := by
  simp [encodeBinary, decodeBinary, List.append_assoc, decodeOperand_encodeOperand,
    decodeVarint_encodeVarint]

theorem decodeTernary_encodeTernary (p : TernaryOp) (rest : List Nat) :
    decodeTernary (encodeTernary p ++ rest) = .ok (p, rest) := by
  simp [encodeTernary, decodeTernary, List.append_assoc, decodeOperand_encodeOperand,
    decodeVarint_encodeVarint]

/-- C4: Binary round-trip — for every variant of the `Instruction` enum,
decoding (`FromBytes::read_le`) the little-endian byte encoding
(`ToBytes::write_le`: 2-byte little-endian opcode tag, then the variant's
operand encoding) yields the original instruction, leaving trailing bytes
untouched. -/
theorem instruction_readLe_writeLe (i : Instruction) (rest : List Nat) :
    Instruction.readLe (i.writeLe ++ rest) = .ok (i, rest) := by
  cases i <;>
    simp [Instruction.writeLe, Instruction.readLe, Instruction.opcode,
      Instruction.payloadBytes, u16le, readU16, decodeBinary_encodeBinary,
      decodeUnary_encodeUnary, decodeTernary_encodeTernary, Except.map]

theorem readU16_u16le (n : Nat) (rest : List Nat) (h : n < 65536) :
    readU16 (u16le n ++ rest) = .ok (n, rest) := by
  simp only [u16le, List.cons_append, List.nil_append, readU16, Except.ok.injEq,
    Prod.mk.injEq, and_true]
  omega

/-- C5: Unknown opcode tag — for every byte stream whose leading 2-byte
little-endian tag is not one of the recognized codes `0` through `15`,
`Instruction` decoding fails with the error naming the offending code, and
never returns an instruction. -/
theorem instruction_readLe_unknown_code (code : Nat) (bs : List Nat)
    (h16 : 16 ≤ code) (hlt : code < 65536) :
    Instruction.readLe (u16le code ++ bs) =
      .error ("FromBytes failed to parse an instruction of code " ++ toString code) := by
  unfold Instruction.readLe
  rw [readU16_u16le code bs hlt]
  split
  · simp_all
  · rename_i c2 bs2 heq
    rw [Except.ok.injEq, Prod.mk.injEq] at heq
    obtain ⟨h1, h2⟩ := heq
    subst h1
    subst h2
    split <;> first | rfl | omega

/-- Witness for C5 at the concrete code `999`. -/
theorem instruction_readLe_unknown_code_witness :
    16 ≤ 999 ∧ 999 < 65536 ∧
      Instruction.readLe (u16le 999 ++ []) =
        .error ("FromBytes failed to parse an instruction of code " ++ toString 999) :=
  ⟨by decide, by decide, instruction_readLe_unknown_code 999 [] (by decide) (by decide)⟩

/-! ### Textual round-trip lemmas -/

theorem natDigitsAux_lt10 (fuel : Nat) :
    ∀ (n d : Nat), d ∈ natDigitsAux fuel n → d < 10 := by
  induction fuel with
  | zero => intro n d h; simp [natDigitsAux] at h
  | succ fuel ih =>
    intro n d h
    by_cases h10 : n < 10
    · simp [natDigitsAux, h10] at h; omega
    · simp only [natDigitsAux, if_neg h10, List.mem_append, List.mem_singleton] at h
      cases h with
      | inl h => exact ih _ _ h
      | inr h => subst h; exact Nat.mod_lt _ (by omega)

theorem natDigitsAux_ne_nil (fuel n : Nat) (h : 0 < fuel) : natDigitsAux fuel n ≠ [] := by
  cases fuel with
  | zero => omega
  | succ fuel => by_cases h10 : n < 10 <;> simp [natDigitsAux, h10]

theorem foldl_natDigitsAux (fuel : Nat) :
    ∀ n : Nat, n < fuel →
      (natDigitsAux fuel n).foldl (fun a d => 10 * a + d) 0 = n := by
  induction fuel with
  | zero => intro n h; omega
  | succ fuel ih =>
    intro n h
    by_cases h10 : n < 10
    · simp [natDigitsAux, h10]
    · have hdiv : n / 10 < fuel := by
        have := Nat.div_lt_self (show 0 < n by omega) (show 1 < 10 by omega)
        omega
      simp only [natDigitsAux, if_neg h10, List.foldl_append, ih _ hdiv,
        List.foldl_cons, List.foldl_nil]
      omega

theorem digitChar_toNat (d : Nat) (h : d < 10) : (digitChar d).toNat = 48 + d := by
  interval_cases d <;> decide

theorem isDigitCh_digitChar (d : Nat) (h : d < 10) : isDigitCh (digitChar d) = true := by
  interval_cases d <;> decide

theorem foldl_map_digitChar :
    ∀ (ds : List Nat), (∀ d ∈ ds, d < 10) → ∀ a : Nat,
      (ds.map digitChar).foldl (fun acc c => 10 * acc + (c.toNat - 48)) a
        = ds.foldl (fun acc d => 10 * acc + d) a := by
  intro ds
  induction ds with
  | nil => intro _ a; rfl
  | cons d ds ih =>
    intro hds a
    have hd : d < 10 := hds d (List.mem_cons_self d ds)
    have h48 : 48 + d - 48 = d := by omega
    simp only [List.map_cons, List.foldl_cons, digitChar_toNat d hd, h48]
    exact ih (fun x hx => hds x (List.mem_cons_of_mem _ hx)) _

theorem charsToNat_natChars (n : Nat) : charsToNat (natChars n) = n := by
  unfold charsToNat natChars natDigits
  rw [foldl_map_digitChar _ (fun d hd => natDigitsAux_lt10 _ _ _ hd)]
  exact foldl_natDigitsAux _ _ (Nat.lt_succ_self n)

theorem natChars_all_digit (n : Nat) : (natChars n).all isDigitCh = true := by
  rw [List.all_eq_true]
  intro c hc
  rw [natChars, List.mem_map] at hc
  obtain ⟨d, hd, rfl⟩ := hc
  exact isDigitCh_digitChar d (natDigitsAux_lt10 _ _ _ hd)

theorem natChars_ne_nil (n : Nat) : natChars n ≠ [] := by
  unfold natChars natDigits
  intro h
  exact natDigitsAux_ne_nil (n + 1) n (Nat.succ_pos n) (List.map_eq_nil_iff.mp h)

theorem takeDigits_append :
    ∀ (ds rest : List Char), ds.all isDigitCh = true → noDigitHead rest = true →
      takeDigits (ds ++ rest) = (ds, rest) := by
  intro ds
  induction ds with
  | nil =>
    intro rest _ hrest
    cases rest with
    | nil => rfl
    | cons c cs =>
      simp only [noDigitHead, Bool.not_eq_true'] at hrest
      simp [takeDigits, hrest]
  | cons c cs ih =>
    intro rest hds hrest
    rw [List.all_cons, Bool.and_eq_true] at hds
    simp only [List.cons_append, takeDigits, hds.1, if_true, List.append_eq,
      ih rest hds.2 hrest]

theorem parseNatChars_natChars (n : Nat) (rest : List Char)
    (h : noDigitHead rest = true) :
    parseNatChars (natChars n ++ rest) = some (n, rest) := by
  unfold parseNatChars
  rw [takeDigits_append _ _ (natChars_all_digit n) h]
  obtain ⟨c, cs, hc⟩ := List.exists_cons_of_ne_nil (natChars_ne_nil n)
  rw [hc]
  show some (charsToNat (c :: cs), rest) = some (n, rest)
  rw [← hc, charsToNat_natChars]

theorem parseOperand_not_r (c : Char) (cs : List Char) (hc : c ≠ 'r') :
    parseOperand (c :: cs) = parseLiteral (c :: cs) := by
  simp [parseOperand, hc]

theorem parseLiteral_format (l : Lit) (rest : List Char) (h : noDigitHead rest = true) :
    parseLiteral (natChars l.val ++ (('u' :: natChars l.tyTag) ++ rest))
      = some (.literal l, rest) := by
  unfold parseLiteral
  rw [parseNatChars_natChars l.val (('u' :: natChars l.tyTag) ++ rest) rfl]
  show (if ('u' : Char) = 'u' then _ else none) = _
  rw [if_pos rfl]
  simp only [List.append_eq]
  rw [parseNatChars_natChars l.tyTag rest h]

theorem parseOperand_formatOperand (o : Operand) (rest : List Char)
    (h : noDigitHead rest = true) :
    parseOperand (formatOperand o ++ rest) = some (o, rest) := by
  cases o with
  | register i =>
    simp only [formatOperand, List.cons_append]
    simp only [parseOperand, if_true]
    rw [parseNatChars_natChars i rest h]
  | literal l =>
    have hsplit : formatOperand (.literal l) ++ rest
        = natChars l.val ++ (('u' :: natChars l.tyTag) ++ rest) := by
      simp [formatOperand]
    obtain ⟨c, cs, hc⟩ := List.exists_cons_of_ne_nil (natChars_ne_nil l.val)
    have hdig : isDigitCh c = true := by
      have hall := natChars_all_digit l.val
      rw [hc, List.all_cons, Bool.and_eq_true] at hall
      exact hall.1
    have hcr : c ≠ 'r' := by
      intro hcontra
      rw [hcontra] at hdig
      simp [isDigitCh] at hdig
    rw [hsplit, hc, List.cons_append, parseOperand_not_r c _ hcr, ← List.cons_append,
      ← hc, parseLiteral_format l rest h]

theorem parseRegisterIdx_format (d : Nat) (rest : List Char)
    (h : noDigitHead rest = true) :
    parseRegisterIdx ('r' :: (natChars d ++ rest)) = some (d, rest) := by
  simp only [parseRegisterIdx, if_true]
  exact parseNatChars_natChars d rest h

theorem parseBinary_formatBinary (p : BinaryOp) (rest : List Char)
    (h : noDigitHead rest = true) :
    parseBinary (formatBinary p ++ rest) = some (p, rest) := by
  obtain ⟨o₁, o₂, d⟩ := p
  have e1 : parseOperand (formatOperand o₁ ++ (',' :: ' ' :: (formatOperand o₂
        ++ (',' :: ' ' :: 'r' :: (natChars d ++ rest)))))
      = some (o₁, ',' :: ' ' :: (formatOperand o₂
        ++ (',' :: ' ' :: 'r' :: (natChars d ++ rest)))) :=
    parseOperand_formatOperand _ _ rfl
  have e2 : parseOperand (formatOperand o₂ ++ (',' :: ' ' :: 'r' :: (natChars d ++ rest)))
      = some (o₂, ',' :: ' ' :: 'r' :: (natChars d ++ rest)) :=
    parseOperand_formatOperand _ _ rfl
  have e3 : parseRegisterIdx ('r' :: (natChars d ++ rest)) = some (d, rest) :=
    parseRegisterIdx_format d rest h
  simp [parseBinary, formatBinary, List.append_assoc, tagTok, e1, e2, e3]

/-- C3 (amended): the textual round-trip holds exactly for the two variants
the source's parser lists as alternatives — parsing the formatted text of an
`Add` or `Sub` instruction returns it with all input consumed, while for
every other variant `Instruction::parse` rejects the instruction's own
formatted text, since the `alt` list contains only the `add` and `sub`
parsers. -/
theorem instruction_parse_format (i : Instruction) :
    Instruction.parseChars i.format
      = if i.isParseAlternative then some (i, ([] : List Char)) else none := by
  have hsemi : noDigitHead [';'] = true := by decide
  cases i <;>
    simp [Instruction.parseChars, Instruction.format, Instruction.mnemonic,
      Instruction.payloadChars, Instruction.isParseAlternative, sanitize, sanitizeAux,
      isWsCh, tagTok, parseBinary_formatBinary _ _ hsemi]

/-- C3 (counterexample): parsing the formatted text of a concrete `Div`
instruction fails — `parse(format(instr)) == instr` does not hold for every
variant. -/
theorem instruction_parse_format_div_fails :
    Instruction.parseChars (Instruction.format (.div ⟨.register 0, .register 1, 2⟩))
      = none := by
  decide

end Bytecode

namespace Circuits

theorem bitsBE_foldl :
    ∀ (l : List Bool) (a : Nat),
      l.foldl (fun n b => 2 * n + (if b then 1 else 0)) a
        = a * 2 ^ l.length + bitsBEToNat l := by
  intro l
  induction l with
  | nil => intro a; simp [bitsBEToNat]
  | cons b bs ih =>
    intro a
    have h2 : bitsBEToNat (b :: bs)
        = (2 * 0 + (if b then 1 else 0)) * 2 ^ bs.length + bitsBEToNat bs := by
      simp only [bitsBEToNat, List.foldl_cons]
      exact ih _
    rw [List.foldl_cons, ih, h2, List.length_cons]
    cases b <;> simp <;> ring

theorem mulStep_value {G : Type} [AddCommGroup G] (base out : CGroup G) (bit : CBool) :
    (CGroup.mulStep base out bit).value
      = if bit.value then base.value + (out.value + out.value)
        else out.value + out.value := by
  obtain ⟨b⟩ := bit
  cases b <;> simp [CGroup.mulStep, CGroup.ternary, CGroup.double, CGroup.add]

theorem mulBits_loop {G : Type} [AddCommGroup G] (base : CGroup G) :
    ∀ (bits : List CBool) (out : CGroup G),
      (bits.foldl (CGroup.mulStep base) out).value
        = 2 ^ bits.length • out.value
          + bitsBEToNat (bits.map CBool.value) • base.value := by
  intro bits
  induction bits with
  | nil => intro out; simp [bitsBEToNat]
  | cons b bs ih =>
    intro out
    rw [List.foldl_cons, ih (CGroup.mulStep base out b)]
    have hbits : bitsBEToNat (List.map CBool.value (b :: bs))
        = (if b.value then 1 else 0) * 2 ^ bs.length
          + bitsBEToNat (List.map CBool.value bs) := by
      simp only [List.map_cons, bitsBEToNat, List.foldl_cons]
      rw [bitsBE_foldl]
      simp [List.length_map, bitsBEToNat]
    rw [mulStep_value, hbits, List.length_cons]
    have hpow : (2 : ℕ) ^ (bs.length + 1) = 2 ^ bs.length + 2 ^ bs.length := by ring
    cases hb : b.value
    all_goals simp only [hb, if_true, Bool.false_eq_true, if_false, zero_mul,
      zero_add, one_mul, hpow, smul_add, add_smul]
    all_goals abel

/-- C7: Mode equivalence for circuit group scalar multiplication — for every
group element and every scalar bit sequence, the value ejected from the
circuit-mode double-and-add loop of `MulAssign<&[Boolean<E>]> for Group<E>`
(repeated doubling with a ternary-selected conditional add over the
big-endian scalar bits) equals the native scalar product of the bits' value
with the group element's value. -/
theorem cgroup_mulBits_eject {G : Type} [AddCommGroup G] (g : CGroup G)
    (bits : List CBool) :
    (CGroup.mulBits g bits).value = bitsBEToNat (bits.map CBool.value) • g.value := by
  unfold CGroup.mulBits
  rw [mulBits_loop]
  simp [CGroup.zero]

/-- Witness for C7 at a concrete group (`ℤ`), base `3` and bits `[1,0,1]`
(scalar `5`). -/
theorem cgroup_mulBits_eject_witness :
    (CGroup.mulBits (⟨3⟩ : CGroup ℤ) [ ⟨true⟩, ⟨false⟩, ⟨true⟩ ]).value
      = bitsBEToNat [true, false, true] • (3 : ℤ) :=
  cgroup_mulBits_eject (⟨3⟩ : CGroup ℤ) [ ⟨true⟩, ⟨false⟩, ⟨true⟩ ]

end Circuits

namespace Dpc

/-- C8: In `EncryptedRecord::decrypt`, the program-id component of the
`is_dummy` check compares the decoded program id against a clone of itself
and is therefore true for every decrypted record, so the computed `is_dummy`
flag equals `(value == 0) && (payload == Payload::default())` for every
input that decrypts successfully. -/
theorem decrypt_isDummy (viewKey : Nat) (plaintext : List Nat) (r : Record)
    (h : decryptPlaintext viewKey plaintext = .ok r) :
    r.isDummy = ((r.value == 0) && (r.payload == payloadDefault)) := by
  unfold decryptPlaintext at h
  repeat' split at h
  any_goals exact Except.noConfusion h
  simp only [Except.ok.injEq] at h
  subst h
  simp

set_option maxRecDepth 4096 in
/-- Witness for C8: a concrete all-zero 232-byte plaintext decrypts to a
record whose `is_dummy` flag is the two-component check. -/
theorem decrypt_isDummy_witness :
    decryptPlaintext 5 (List.replicate 232 0)
      = .ok ⟨List.replicate 32 0, 5, true, 0, List.replicate 128 0,
          List.replicate 32 0, List.replicate 32 0⟩
    ∧ Record.isDummy ⟨List.replicate 32 0, 5, true, 0, List.replicate 128 0,
          List.replicate 32 0, List.replicate 32 0⟩
        = ((Record.value ⟨List.replicate 32 0, 5, true, 0, List.replicate 128 0,
              List.replicate 32 0, List.replicate 32 0⟩ == 0)
            && (Record.payload ⟨List.replicate 32 0, 5, true, 0, List.replicate 128 0,
              List.replicate 32 0, List.replicate 32 0⟩ == payloadDefault)) :=
  ⟨by decide, decrypt_isDummy 5 (List.replicate 232 0) _ (by decide)⟩

theorem readBytes_append (xs rest : List Nat) :
    readBytes xs.length (xs ++ rest) = .ok (xs, rest) := by
  unfold readBytes
  rw [if_neg (by simp)]
  simp

/-- C10: `EncryptedRecord` byte serialization round-trips whenever the
ciphertext length fits a `u16`: `write_le` prefixes the ciphertext with its
length cast (truncated) to a little-endian `u16`, so for every record with
at most 65535 ciphertext bytes, `read_le` of the written bytes reconstructs
an equal record, leaving trailing bytes untouched. -/
theorem encryptedRecord_roundtrip (r : EncryptedRecord) (rest : List Nat)
    (h : r.ciphertext.length ≤ 65535) :
    EncryptedRecord.readLe (r.writeLe ++ rest) = .ok (r, rest) := by
  obtain ⟨ct⟩ := r
  have h2 : ct.length ≤ 65535 := h
  have h3 : ct.length < 65536 := by omega
  unfold EncryptedRecord.writeLe EncryptedRecord.readLe
  rw [List.append_assoc, Bytecode.readU16_u16le ct.length (ct ++ rest) h3]
  show (match readBytes ct.length (ct ++ rest) with
    | .error e => (.error e : Except String (EncryptedRecord × List Nat))
    | .ok (c, rest') => .ok (EncryptedRecord.new c, rest')) = .ok (⟨ct⟩, rest)
  rw [readBytes_append]
  rfl

/-- Witness for C10 at a concrete 3-byte ciphertext. -/
theorem encryptedRecord_roundtrip_witness :
    (EncryptedRecord.new [1, 2, 3]).ciphertext.length ≤ 65535
    ∧ EncryptedRecord.readLe ((EncryptedRecord.new [1, 2, 3]).writeLe ++ [9])
        = .ok (EncryptedRecord.new [1, 2, 3], [9]) :=
  ⟨by decide, encryptedRecord_roundtrip (EncryptedRecord.new [1, 2, 3]) [9] (by decide)⟩

end Dpc

namespace Ledger

theorem readU32_u32le (n : Nat) (rest : List Nat) (h : n < 4294967296) :
    readU32 (u32le n ++ rest) = .ok (n, rest) := by
  simp only [u32le, List.cons_append, List.nil_append, readU32, Except.ok.injEq,
    Prod.mk.injEq, and_true]
  omega

theorem readTransactionsAux_flatMap :
    ∀ (ts : List Nat) (rest : List Nat), (∀ t ∈ ts, t < 4294967296) →
      readTransactionsAux ts.length (ts.flatMap u32le ++ rest) = .ok (ts, rest) := by
  intro ts
  induction ts with
  | nil => intro rest _; simp [readTransactionsAux]
  | cons t ts ih =>
    intro rest hts
    simp only [List.flatMap_cons, List.length_cons, List.append_assoc,
      readTransactionsAux]
    simp only [readU32_u32le t _ (hts t (List.mem_cons_self t ts)),
      ih rest (fun x hx => hts x (List.mem_cons_of_mem _ hx))]

theorem readTransactions_writeTransactions (ts : List Nat) (rest : List Nat)
    (hlen : ts.length < 4294967296) (hts : ∀ t ∈ ts, t < 4294967296) :
    readTransactions (writeTransactions ts ++ rest) = .ok (ts, rest) := by
  unfold readTransactions writeTransactions
  rw [List.append_assoc]
  simp only [readU32_u32le ts.length _ hlen, readTransactionsAux_flatMap ts rest hts]

theorem block_readLeRaw_writeLe (b : Block) (rest : List Nat) (hwf : b.wellFormed) :
    Block.readLeRaw (b.writeLe ++ rest)
      = .ok (b.blockHash, b.previousHash, b.header, b.transactions, b.coinbase,
          b.signature, rest) := by
  obtain ⟨h1, h2, h3, h4, h5, h6, h7⟩ := hwf
  unfold Block.writeLe Block.readLeRaw
  cases hcb : b.coinbase with
  | none =>
    simp only [hcb, List.cons_append, List.nil_append, List.append_assoc]
    rw [if_neg (by omega)]
    simp [readU32_u32le, h1, h2, h3, h7,
      readTransactions_writeTransactions b.transactions
        (0 :: (u32le b.signature ++ rest)) h4 h5]
  | some c =>
    have h6c : c < 4294967296 := h6 c (by rw [hcb]; rfl)
    simp only [hcb, List.cons_append, List.nil_append, List.append_assoc]
    rw [if_neg (by omega)]
    simp [readU32_u32le, h1, h2, h3, h6c, h7,
      readTransactions_writeTransactions b.transactions
        (1 :: (u32le c ++ (u32le b.signature ++ rest))) h4 h5]

/-- C9: Block decoding is hash-consistent — `Block::read_le` returns a block
only when its block hash equals the hash recomputed from the decoded
components, and for every encoded block whose stored hash differs from the
recomputed one, `read_le` returns the mismatching-hash decode error and no
block. -/
theorem block_readLe_hash_consistent :
    (∀ (bs : List Nat) (b : Block) (rest : List Nat),
        Block.readLe bs = .ok (b, rest) →
        b.blockHash
          = hashOf b.previousHash b.header b.transactions b.coinbase b.signature)
    ∧ (∀ (b : Block) (rest : List Nat), b.wellFormed →
        b.blockHash
            ≠ hashOf b.previousHash b.header b.transactions b.coinbase b.signature →
        Block.readLe (b.writeLe ++ rest)
          = .error "Mismatching block hash, possible data corruption") := by
  constructor
  · intro bs b rest h
    unfold Block.readLe at h
    split at h
    · exact Except.noConfusion h
    · split at h
      · simp only [Except.ok.injEq, Prod.mk.injEq] at h
        obtain ⟨hb, -⟩ := h
        subst hb
        rfl
      · exact Except.noConfusion h
  · intro b rest hwf hne
    have hb : (b.blockHash == (Block.from b.previousHash b.header b.transactions
        b.coinbase b.signature).hash) = false := beq_eq_false_iff_ne.mpr hne
    unfold Block.readLe
    simp [block_readLeRaw_writeLe b rest hwf, hb]

/-- Witness for C9: a consistently hashed concrete block decodes back, and a
concrete block whose stored hash was tampered with decodes to the
mismatching-hash error. -/
theorem block_readLe_hash_consistent_witness :
    (Block.from 1 2 [3, 4] (some 5) 6).blockHash
        = hashOf 1 2 [3, 4] (some 5) 6
    ∧ Block.readLe ((⟨1, 2, 3, [4], none, 5⟩ : Block).writeLe ++ [])
        = .error "Mismatching block hash, possible data corruption" :=
  ⟨block_readLe_hash_consistent.1 ((Block.from 1 2 [3, 4] (some 5) 6).writeLe ++ [])
      (Block.from 1 2 [3, 4] (some 5) 6) [] (by decide),
    block_readLe_hash_consistent.2 ⟨1, 2, 3, [4], none, 5⟩ []
      (by refine ⟨?_, ?_, ?_, ?_, ?_, ?_, ?_⟩ <;> decide)
      (by decide)⟩

end Ledger

namespace Synthesizer

theorem getRegisterTypes_of_getFunction (s : Stack) (name : String) (f : FunctionDecl)
    (h : s.getFunction name = .ok f) :
    s.getRegisterTypes f.name = .ok f.registerTypes := by
  unfold Stack.getFunction at h
  split at h
  · rename_i f' hf
    injection h with h
    rw [h] at hf
    have hname : f.name = name := by
      have hp := List.find?_some hf
      simpa [beq_iff_eq] using hp
    unfold Stack.getRegisterTypes
    rw [hname, hf]
  · exact Except.noConfusion h

theorem evaluateFunctionCore_trace_head (stack : Stack) (r : Request) (cs : CallStack) :
    (evaluateFunctionCore stack r cs).2.head? = some (Event.requestRetrieved r) := by
  unfold evaluateFunctionCore
  repeat' first | rfl | split | simp only []

/-- C1: `evaluate_function` mode dispatch — in `Evaluate` mode the next
request is taken destructively (the call stack left behind holds the
authorization's tail, and the request processed is the head); in `Execute`
mode the next request is peeked (the authorization in the call stack left
behind is unchanged, the request processed is still the head); an exhausted
authorization is an error; and any other mode (`Authorize`) fails fast with
the descriptive illegal-operation error without evaluating anything. -/
theorem evaluateFunction_mode_dispatch (stack : Stack) :
    (∀ (r : Request) (rest : List Request),
        (evaluateFunction stack (.evaluate (r :: rest))).2.1 = CallStack.evaluate rest
        ∧ (evaluateFunction stack (.evaluate (r :: rest))).2.2.head?
            = some (Event.requestRetrieved r))
    ∧ ((evaluateFunction stack (.evaluate [])).1 = .error "The authorization is empty"
        ∧ (evaluateFunction stack (.evaluate [])).2.1 = CallStack.evaluate [])
    ∧ (∀ (auth : List Request) (sink : List String),
        (evaluateFunction stack (.execute auth sink)).2.1 = CallStack.execute auth sink)
    ∧ (∀ (r : Request) (rest : List Request) (sink : List String),
        (evaluateFunction stack (.execute (r :: rest) sink)).2.2.head?
          = some (Event.requestRetrieved r))
    ∧ (∀ (requests : List Request) (key : Nat) (auth : List Request),
        evaluateFunction stack (.authorize requests key auth)
          = (.error "Illegal operation: call stack must be `Evaluate` or `Execute` in `evaluate_function`.",
             CallStack.authorize requests key auth, [])) := by
  refine ⟨?_, ⟨rfl, rfl⟩, ?_, ?_, fun _ _ _ => rfl⟩
  · intro r rest
    exact ⟨rfl, evaluateFunctionCore_trace_head stack r (.evaluate rest)⟩
  · intro auth sink
    cases auth <;> rfl
  · intro r rest sink
    exact evaluateFunctionCore_trace_head stack r (.execute (r :: rest) sink)

/-- C2 (counterexample): a concrete request whose signature does not verify —
`evaluate_function` returns the verification error, yet the register file
has been initialized (the `registersInit` event is in the trace), so
"no register file has been initialized" fails. -/
theorem evaluateFunction_verify_fail_registers_init :
    (evaluateFunction sampleStack (.evaluate [sampleBadSigRequest])).1
        = .error "Request is invalid"
    ∧ Event.registersInit
        ∈ (evaluateFunction sampleStack (.evaluate [sampleBadSigRequest])).2.2 := by
  decide

/-- C2 (amended): the request's signature and input-type conformance are
verified after the register file is constructed but before any input is
stored — for every request reaching the verification step whose
verification fails, `evaluate_function` returns the "Request is invalid"
error with the register file already initialized and no input stored and no
instruction evaluated (the trace is exactly
`[requestRetrieved, registersInit]`). -/
theorem evaluateFunction_verify_failure (stack : Stack) (r : Request)
    (rest : List Request) (f : FunctionDecl)
    (hnet : r.networkId = networkID)
    (hf : stack.getFunction r.functionName = .ok f)
    (harity : f.inputs.length = r.inputs.length)
    (hverify : r.verify f.inputTypes = false) :
    (evaluateFunction stack (.evaluate (r :: rest))).1 = .error "Request is invalid"
    ∧ (evaluateFunction stack (.evaluate (r :: rest))).2.2
        = [Event.requestRetrieved r, Event.registersInit] := by
  have hcore : evaluateFunctionCore stack r (.evaluate rest)
      = (.error "Request is invalid",
          [Event.requestRetrieved r, Event.registersInit]) := by
    unfold evaluateFunctionCore
    rw [if_neg (by simp [hnet]), hf]
    simp only []
    rw [if_neg (by simp [harity]), getRegisterTypes_of_getFunction stack _ f hf]
    simp only []
    rw [if_pos (by simp [hverify])]
    rfl
  constructor
  · show (evaluateFunctionCore stack r (.evaluate rest)).1 = _
    rw [hcore]
  · show (evaluateFunctionCore stack r (.evaluate rest)).2 = _
    rw [hcore]

/-- Witness for C2's amended theorem at the concrete sample stack and
bad-signature request. -/
theorem evaluateFunction_verify_failure_witness :
    (evaluateFunction sampleStack (.evaluate [sampleBadSigRequest])).1
        = .error "Request is invalid"
    ∧ (evaluateFunction sampleStack (.evaluate [sampleBadSigRequest])).2.2
        = [Event.requestRetrieved sampleBadSigRequest, Event.registersInit] :=
  evaluateFunction_verify_failure sampleStack sampleBadSigRequest [] sampleFunction
    (by decide) (by decide) (by decide) (by decide)

/-- C6: arity mismatch — a closure declared with `k` inputs called with a
different number of provided inputs fails with the error naming both counts
and an empty event trace (no register file, no instruction evaluated); a
function whose request carries a different number of inputs than declared
fails with the error naming the function, program and both counts, with
only the request-retrieval event in the trace (no instruction of the body
evaluated). -/
theorem arity_mismatch_errors :
    (∀ (stack : Stack) (closure : ClosureDecl) (inputs : List Value)
        (cs : CallStack) (caller tvk : Nat),
        closure.inputs.length ≠ inputs.length →
        evaluateClosure stack closure inputs cs caller tvk
          = (.error ("Expected " ++ toString closure.inputs.length
              ++ " inputs, found " ++ toString inputs.length), []))
    ∧ (∀ (stack : Stack) (r : Request) (rest : List Request) (f : FunctionDecl),
        r.networkId = networkID →
        stack.getFunction r.functionName = .ok f →
        f.inputs.length ≠ r.inputs.length →
        (evaluateFunction stack (.evaluate (r :: rest))).1
            = .error ("Function " ++ quoted f.name ++ " in the program "
                ++ quoted stack.programId ++ " expects " ++ toString f.inputs.length
                ++ " inputs, but " ++ toString r.inputs.length ++ " were provided.")
          ∧ (evaluateFunction stack (.evaluate (r :: rest))).2.2
              = [Event.requestRetrieved r]) := by
  constructor
  · intro stack closure inputs cs caller tvk h
    unfold evaluateClosure
    rw [if_pos h]
  · intro stack r rest f hnet hf harity
    have hcore : evaluateFunctionCore stack r (.evaluate rest)
        = (.error ("Function " ++ quoted f.name ++ " in the program "
            ++ quoted stack.programId ++ " expects " ++ toString f.inputs.length
            ++ " inputs, but " ++ toString r.inputs.length ++ " were provided."),
            [Event.requestRetrieved r]) := by
      unfold evaluateFunctionCore
      rw [if_neg (by simp [hnet]), hf]
      simp only []
      rw [if_pos harity]
    constructor
    · show (evaluateFunctionCore stack r (.evaluate rest)).1 = _
      rw [hcore]
    · show (evaluateFunctionCore stack r (.evaluate rest)).2 = _
      rw [hcore]

/-- Witness for C6 at the concrete sample closure (one declared input, none
provided) and the concrete bad-arity request. -/
theorem arity_mismatch_errors_witness :
    evaluateClosure sampleStack sampleClosure [] (.evaluate []) 9 11
        = (.error ("Expected " ++ toString 1 ++ " inputs, found " ++ toString 0), [])
    ∧ (evaluateFunction sampleStack (.evaluate [sampleBadArityRequest])).1
        = .error ("Function " ++ quoted "transfer" ++ " in the program "
            ++ quoted "token" ++ " expects " ++ toString 1 ++ " inputs, but "
            ++ toString 0 ++ " were provided.") :=
  ⟨arity_mismatch_errors.1 sampleStack sampleClosure [] (.evaluate []) 9 11 (by decide),
    (arity_mismatch_errors.2 sampleStack sampleBadArityRequest [] sampleFunction
      (by decide) (by decide) (by decide)).1⟩

end Synthesizer

end SnarkVM
